import Mathlib

/-!
Verification of the matchmaking engine of the tennis doubles manager
(`src/tennis_ui.py`).  The data model (`Player`, `Match`), the cost model
(`SchedulerEngine.calculate_cost`), the randomized schedule generator
(`SchedulerEngine.generate_schedule`) and the result-submission handler are
embedded as executable Lean definitions.  Python dictionaries become
association lists with `get`-with-default-0 lookup; the mutable roster becomes
a `List Player` threaded through the operations, players being addressed by
their index in the roster (the Python code addresses them by object identity);
the calls to `random.sample` become an oracle `Nat → Nat → Pick` giving the
sampled candidate quadruple for every (slot, attempt) pair.
-/

namespace Tennis

/-- The `stats` dictionary of a `Player` (`{"wins", "losses", "score_diff"}`). -/
structure Stats where
  wins : Nat
  losses : Nat
  score_diff : Int
deriving DecidableEq

/-- The `history` dictionary of a `Player` (`{"partner": {...}, "opponent": {...}}`);
each inner dictionary maps the other player's name to a count. -/
structure History where
  partner : List (String × Int)
  opponent : List (String × Int)
deriving DecidableEq

/-- `Player` as built by `Player.__init__`. -/
structure Player where
  name : String
  games_played : Nat
  stats : Stats
  history : History
deriving DecidableEq

/-- `Player(name)`: fresh player with zeroed stats and empty history. -/
def Player.init (name : String) : Player :=
  ⟨name, 0, ⟨0, 0, 0⟩, ⟨[], []⟩⟩

/-- Python `dict.get(k, 0)` on an association list. -/
def getCount : List (String × Int) → String → Int
  | [], _ => 0
  | (k2, v) :: rest, k => if k2 = k then v else getCount rest k

/-- Python `d[k] = v` on an association list: replace the first binding of `k`,
or append a new binding. -/
def setCount : List (String × Int) → String → Int → List (String × Int)
  | [], k, v => [(k, v)]
  | (k2, v2) :: rest, k, v =>
      if k2 = k then (k, v) :: rest else (k2, v2) :: setCount rest k v

/-- `d[k] = d.get(k, 0) + 1`, the increment pattern used by
`record_match_relations`. -/
def incCount (m : List (String × Int)) (k : String) : List (String × Int) :=
  setCount m k (getCount m k + 1)

/-- `Player.update_stat(won, score_diff)`. -/
def Player.update_stat (p : Player) (won : Bool) (score_diff : Int) : Player :=
  { p with
    games_played := p.games_played + 1,
    stats :=
      { wins := if won then p.stats.wins + 1 else p.stats.wins,
        losses := if won then p.stats.losses else p.stats.losses + 1,
        score_diff := p.stats.score_diff + score_diff } }

/-- `Player.record_match_relations(partner, opponent1, opponent2)`: bump the
partner count for `partner` and the opponent counts for the two opponents
(the two opponent updates are sequential on the same dictionary). -/
def Player.record_match_relations (p partner opp1 opp2 : Player) : Player :=
  { p with
    history :=
      { partner := incCount p.history.partner partner.name,
        opponent := incCount (incCount p.history.opponent opp1.name) opp2.name } }

/-- `Match` as built by `Match.__init__`; teams hold roster indices (the Python
code holds object references into the roster list). -/
structure Match where
  id : Nat
  team_a : List Nat
  team_b : List Nat
  result : Nat × Nat
  is_finished : Bool
deriving DecidableEq

/-- `SchedulerEngine.calculate_cost(p1, p2, p3, p4)`:
partner counts weighted 5, the four cross opponent counts weighted 2. -/
def calculate_cost (p1 p2 p3 p4 : Player) : Int :=
  getCount p1.history.partner p2.name * 5 +
  getCount p3.history.partner p4.name * 5 +
  getCount p1.history.opponent p3.name * 2 +
  getCount p1.history.opponent p4.name * 2 +
  getCount p2.history.opponent p3.name * 2 +
  getCount p2.history.opponent p4.name * 2

/-- One draw of `random.sample(candidates, 4)`, as four roster indices in
sampling order (`picks[0] .. picks[3]`). -/
structure Pick where
  a : Nat
  b : Nat
  c : Nat
  d : Nat
deriving DecidableEq

/-- Out-of-range roster reads fall back to this player; all theorems about
`generate_schedule` assume in-range picks, as `random.sample` guarantees. -/
def default_player : Player := Player.init ""

/-- Cost of a sampled quadruple of roster indices. -/
def cost_of (roster : List Player) (pk : Pick) : Int :=
  calculate_cost (roster.getD pk.a default_player) (roster.getD pk.b default_player)
    (roster.getD pk.c default_player) (roster.getD pk.d default_player)

/-- The `while attempts < 300` trial loop of `generate_schedule`, for one slot:
state is `(best_match_tuple, min_cost)`, starting from `(none, 999999)`.
A trial strictly below the current minimum replaces it; the loop stops as soon
as the minimum reaches 0.  The list argument carries the successive values of
`random.sample(candidates, 4)`. -/
def trial_loop (costf : Pick → Int) : List Pick → Option Pick × Int → Option Pick × Int
  | [], s => s
  | pk :: rest, s =>
      let c := costf pk
      let s2 := if c < s.2 then (some pk, c) else s
      if s2.2 = 0 then s2 else trial_loop costf rest s2

/-- `candidates = [p for p in self.players if p.games_played < games_per_player]`
(the subsequent `random.shuffle` is absorbed into the sampling oracle). -/
def candidates (roster : List Player) (g : Nat) : List Player :=
  roster.filter (fun p => p.games_played < g)

/-- One slot of the generation loop: the `len(candidates) < 4` break leaves
`best_match_tuple = None`; otherwise the 300-trial loop runs. -/
def run_slot (roster : List Player) (g : Nat) (picks : List Pick) : Option Pick :=
  if (candidates roster g).length < 4 then none
  else (trial_loop (cost_of roster) picks (none, 999999)).1

/-- In-place mutation of the `i`-th roster entry. -/
def modifyIdx : List α → Nat → (α → α) → List α
  | [], _, _ => []
  | x :: xs, 0, f => f x :: xs
  | x :: xs, n + 1, f => x :: modifyIdx xs n f

/-- `p.games_played += 1`. -/
def bump_games (p : Player) : Player :=
  { p with games_played := p.games_played + 1 }

/-- Committing `best_match_tuple = (p1, p2, p3, p4)` for slot `i` (0-based):
bump all four generation counters, record the partner/opponent relations of
each of the four players, and build `Match(i + 1, [p1, p2], [p3, p4])`. -/
def commit (roster : List Player) (pk : Pick) (mid : Nat) : List Player × Match :=
  let r1 := modifyIdx roster pk.a bump_games
  let r2 := modifyIdx r1 pk.b bump_games
  let r3 := modifyIdx r2 pk.c bump_games
  let r4 := modifyIdx r3 pk.d bump_games
  let q1 := r4.getD pk.a default_player
  let q2 := r4.getD pk.b default_player
  let q3 := r4.getD pk.c default_player
  let q4 := r4.getD pk.d default_player
  let r5 := modifyIdx r4 pk.a (fun p => p.record_match_relations q2 q3 q4)
  let r6 := modifyIdx r5 pk.b (fun p => p.record_match_relations q1 q3 q4)
  let r7 := modifyIdx r6 pk.c (fun p => p.record_match_relations q4 q1 q2)
  let r8 := modifyIdx r7 pk.d (fun p => p.record_match_relations q3 q1 q2)
  (r8, ⟨mid, [pk.a, pk.b], [pk.c, pk.d], (0, 0), false⟩)

/-- The `for i in range(total_matches)` loop of `generate_schedule`: `i` is the
current slot index, the second `Nat` the number of slots still to process,
`acc` the `new_matches` accumulator.  A slot whose trial loop ends with
`best_match_tuple = None` commits nothing but the loop moves on. -/
def gen_loop (g : Nat) (oracle : Nat → Nat → Pick) :
    Nat → Nat → List Player → List Match → List Player × List Match
  | _, 0, roster, acc => (roster, acc)
  | i, rem + 1, roster, acc =>
      match run_slot roster g ((List.range 300).map (oracle i)) with
      | none => gen_loop g oracle (i + 1) rem roster acc
      | some pk =>
          gen_loop g oracle (i + 1) rem (commit roster pk (i + 1)).1
            (acc ++ [(commit roster pk (i + 1)).2])

/-- `for p in self.players: p.games_played = 0`. -/
def reset_games (roster : List Player) : List Player :=
  roster.map (fun p => { p with games_played := 0 })

/-- `SchedulerEngine.generate_schedule(games_per_player)`: compute
`total_matches = len(players) * g // 4`, zero the counters, run the slot loop,
zero the counters again; returns the final roster and `new_matches`. -/
def generate_schedule (roster : List Player) (g : Nat) (oracle : Nat → Nat → Pick) :
    List Player × List Match :=
  let total := roster.length * g / 4
  let st := gen_loop g oracle 0 total (reset_games roster) []
  (reset_games st.1, st.2)

/-- `for p in target_match.team_a: p.update_stat(...)` — the same
`(won, delta)` pair is applied to each member of one team. -/
def update_team (roster : List Player) (team : List Nat) (won : Bool) (delta : Int) :
    List Player :=
  team.foldl (fun r i => modifyIdx r i (fun p => p.update_stat won delta)) roster

/-- The result-submission handler: `diff = abs(sa - sb)`,
`team_a_won = sa > sb`, each team A player gets
`update_stat(team_a_won, diff if team_a_won else -diff)`, each team B player
the complement, and the match's `result`/`is_finished` are set. -/
def apply_result (roster : List Player) (m : Match) (sa sb : Nat) :
    List Player × Match :=
  let diff : Int := |(sa : Int) - (sb : Int)|
  let team_a_won : Bool := decide (sb < sa)
  let r1 := update_team roster m.team_a team_a_won (if team_a_won then diff else -diff)
  let r2 := update_team r1 m.team_b (!team_a_won) (if !team_a_won then diff else -diff)
  (r2, { m with result := (sa, sb), is_finished := true })

/-- `players = [Player(name) for name in names_list]` — the fresh roster the
UI builds immediately before every call to `generate_schedule`. -/
def mk_roster (names : List String) : List Player :=
  names.map Player.init

/-- Sum of the counts stored in one history dictionary. -/
def valuesSum : List (String × Int) → Int
  | [] => 0
  | (_, v) :: rest => v + valuesSum rest

/-- Total number of history increments a player has received (each increment
adds exactly 1 to exactly one stored count). -/
def hist_mass (p : Player) : Int :=
  valuesSum p.history.partner + valuesSum p.history.opponent

/-- Roster index `i` plays in match `m`. -/
def appears (i : Nat) (m : Match) : Bool :=
  m.team_a.contains i || m.team_b.contains i

/-- Number of matches of `ms` that roster index `i` plays in. -/
def appearances (i : Nat) (ms : List Match) : Nat :=
  (ms.filter (appears i)).length

/-- What `random.sample(candidates, 4)` guarantees about a draw: four indices
into the roster, pairwise distinct (candidate lists hold distinct objects). -/
def valid_pick (n : Nat) (pk : Pick) : Prop :=
  pk.a < n ∧ pk.b < n ∧ pk.c < n ∧ pk.d < n ∧
  pk.a ≠ pk.b ∧ pk.a ≠ pk.c ∧ pk.a ≠ pk.d ∧
  pk.b ≠ pk.c ∧ pk.b ≠ pk.d ∧ pk.c ≠ pk.d

instance valid_pick_decidable (n : Nat) (pk : Pick) : Decidable (valid_pick n pk) := by
  unfold valid_pick
  infer_instance

/-- Every draw the sampling oracle can produce is a valid sample. -/
def valid_oracle (n : Nat) (oracle : Nat → Nat → Pick) : Prop :=
  ∀ i t, valid_pick n (oracle i t)

/-- A history dictionary with only non-negative stored counts. -/
def nonneg_counts (m : List (String × Int)) : Prop :=
  ∀ kv ∈ m, 0 ≤ kv.2

/-- Default for out-of-range reads of a match list. -/
def default_match : Match := ⟨0, [], [], (0, 0), false⟩

/-- A player's recorded results are consistent: wins plus losses equals games
played. -/
def stats_consistent (p : Player) : Prop :=
  p.stats.wins + p.stats.losses = p.games_played

/-! ### Concrete instances used by witnesses and counterexamples -/

/-- A four-player roster of fresh players. -/
def wRoster : List Player := mk_roster ["A", "B", "C", "D"]

/-- The sampling oracle that always draws roster indices 0, 1, 2, 3. -/
def wOracle : Nat → Nat → Pick := fun _ _ => ⟨0, 1, 2, 3⟩

/-- A pending match between teams (0, 1) and (2, 3). -/
def wMatch : Match := ⟨1, [0, 1], [2, 3], (0, 0), false⟩

/-- A player whose history says they partnered "B" 200000 times, so that any
grouping teaming them with "B" costs 1000000 ≥ the 999999 sentinel. -/
def cxPlayer : Player := ⟨"A", 0, ⟨0, 0, 0⟩, ⟨[("B", 200000)], []⟩⟩

/-- Four players whose only sampleable grouping costs 1000000. -/
def cxRoster : List Player :=
  [cxPlayer, Player.init "B", Player.init "C", Player.init "D"]

/-- Eight players; slot 0 of the generator can only sample the 1000000-cost
grouping (0,1,2,3), slot 1 samples the cost-0 grouping (4,5,6,7). -/
def cx8Roster : List Player :=
  cxPlayer :: mk_roster ["B", "C", "D", "E", "F", "G", "H"]

/-- Oracle drawing (0,1,2,3) in slot 0 and (4,5,6,7) afterwards. -/
def cx8Oracle : Nat → Nat → Pick :=
  fun i _ => if i = 0 then ⟨0, 1, 2, 3⟩ else ⟨4, 5, 6, 7⟩

/-- A player recorded as having partnered "B" once, while "B"'s own history is
empty: a state with asymmetric history dictionaries. -/
def cxAsym : Player := ⟨"A", 0, ⟨0, 0, 0⟩, ⟨[("B", 1)], []⟩⟩

/-! ### Basic lemmas about the roster and history primitives -/

theorem getD_cons_zero (x : α) (xs : List α) (d : α) : (x :: xs).getD 0 d = x := rfl

theorem getD_cons_succ (x : α) (xs : List α) (n : Nat) (d : α) :
    (x :: xs).getD (n + 1) d = xs.getD n d := rfl

theorem modifyIdx_length (l : List α) (i : Nat) (f : α → α) :
    (modifyIdx l i f).length = l.length := by
  induction l generalizing i with
  | nil => rfl
  | cons x xs ih =>
      cases i with
      | zero => rfl
      | succ n => simpa [modifyIdx] using ih n

theorem getD_modifyIdx_ne (l : List α) (i j : Nat) (f : α → α) (d : α) (h : i ≠ j) :
    (modifyIdx l i f).getD j d = l.getD j d := by
  induction l generalizing i j with
  | nil => rfl
  | cons x xs ih =>
      cases i with
      | zero =>
          cases j with
          | zero => exact absurd rfl h
          | succ m => rfl
      | succ n =>
          cases j with
          | zero => rfl
          | succ m =>
              simp only [modifyIdx, getD_cons_succ]
              exact ih n m (fun hnm => h (by rw [hnm]))

theorem getD_modifyIdx_self (l : List α) (i : Nat) (f : α → α) (d : α)
    (h : i < l.length) : (modifyIdx l i f).getD i d = f (l.getD i d) := by
  induction l generalizing i with
  | nil => exact absurd h (by simp)
  | cons x xs ih =>
      cases i with
      | zero => rfl
      | succ n =>
          simp only [modifyIdx, getD_cons_succ]
          exact ih n (by simpa using h)

theorem mem_modifyIdx_of_closed {P : α → Prop} (l : List α) (i : Nat) (f : α → α)
    (hl : ∀ x ∈ l, P x) (hf : ∀ x, P x → P (f x)) :
    ∀ x ∈ modifyIdx l i f, P x := by
  induction l generalizing i with
  | nil => intro x hx; exact absurd hx (by simp [modifyIdx])
  | cons y ys ih =>
      cases i with
      | zero =>
          intro x hx
          rcases List.mem_cons.mp hx with h | h
          · exact h ▸ hf y (hl y (by simp))
          · exact hl x (by simp [h])
      | succ n =>
          intro x hx
          rcases List.mem_cons.mp hx with h | h
          · exact h ▸ hl y (by simp)
          · exact ih n (fun z hz => hl z (by simp [hz])) x h

theorem getD_map_of_lt (f : α → β) (l : List α) (j : Nat) (d : β) (d2 : α)
    (h : j < l.length) : (l.map f).getD j d = f (l.getD j d2) := by
  induction l generalizing j with
  | nil => exact absurd h (by simp)
  | cons x xs ih =>
      cases j with
      | zero => rfl
      | succ n =>
          simp only [List.map_cons, getD_cons_succ]
          exact ih n (by simpa using h)

theorem getCount_nonneg (m : List (String × Int)) (k : String)
    (h : nonneg_counts m) : 0 ≤ getCount m k := by
  induction m with
  | nil => simp [getCount]
  | cons kv rest ih =>
      obtain ⟨k2, v⟩ := kv
      simp only [getCount]
      by_cases hk : k2 = k
      · simpa [hk] using h (k2, v) (by simp)
      · exact (if_neg hk) ▸ ih (fun kv hkv => h kv (by simp [hkv]))

theorem valuesSum_incCount (m : List (String × Int)) (k : String) :
    valuesSum (incCount m k) = valuesSum m + 1 := by
  induction m with
  | nil => simp [incCount, setCount, getCount, valuesSum]
  | cons kv rest ih =>
      obtain ⟨k2, v⟩ := kv
      by_cases hk : k2 = k
      · simp [incCount, setCount, getCount, valuesSum, hk]
        ring
      · simp only [incCount, setCount, getCount, if_neg hk, valuesSum] at *
        rw [ih]
        ring

theorem hist_mass_record (p partner opp1 opp2 : Player) :
    hist_mass (p.record_match_relations partner opp1 opp2) = hist_mass p + 3 := by
  simp only [hist_mass, Player.record_match_relations, valuesSum_incCount]
  ring

theorem hist_mass_bump (p : Player) : hist_mass (bump_games p) = hist_mass p := rfl

theorem name_record (p partner opp1 opp2 : Player) :
    (p.record_match_relations partner opp1 opp2).name = p.name := rfl

theorem name_bump (p : Player) : (bump_games p).name = p.name := rfl

/-! ### The per-slot trial loop -/

theorem trial_loop_snd_le (costf : Pick → Int) (picks : List Pick)
    (s : Option Pick × Int) : (trial_loop costf picks s).2 ≤ s.2 := by
  induction picks generalizing s with
  | nil => exact le_refl _
  | cons pk rest ih =>
      simp only [trial_loop]
      by_cases hc : costf pk < s.2
      · simp only [if_pos hc]
        by_cases hz : ((some pk : Option Pick), costf pk).2 = 0
        · simp only [if_pos hz]
          exact le_of_lt hc
        · simp only [if_neg hz]
          exact le_trans (ih _) (le_of_lt hc)
      · simp only [if_neg hc]
        by_cases hz : s.2 = 0
        · simp only [if_pos hz]
          exact le_refl _
        · simp only [if_neg hz]
          exact ih s

theorem trial_loop_fst_stay (costf : Pick → Int) (picks : List Pick)
    (s : Option Pick × Int) (h : (trial_loop costf picks s).2 = s.2) :
    (trial_loop costf picks s).1 = s.1 := by
  induction picks generalizing s with
  | nil => rfl
  | cons pk rest ih =>
      simp only [trial_loop] at h ⊢
      by_cases hc : costf pk < s.2
      · simp only [if_pos hc] at h ⊢
        by_cases hz : ((some pk : Option Pick), costf pk).2 = 0
        · simp only [if_pos hz] at h
          exact absurd (h ▸ hc) (lt_irrefl _)
        · simp only [if_neg hz] at h ⊢
          have := trial_loop_snd_le costf rest (some pk, costf pk)
          rw [h] at this
          exact absurd (lt_of_le_of_lt this hc) (lt_irrefl _)
      · simp only [if_neg hc] at h ⊢
        by_cases hz : s.2 = 0
        · simp only [if_pos hz]
        · simp only [if_neg hz] at h ⊢
          exact ih s h


theorem trial_loop_le_costs (costf : Pick → Int) (picks : List Pick)
    (s : Option Pick × Int) (h0 : 0 ≤ s.2) (hn : ∀ pk ∈ picks, 0 ≤ costf pk) :
    ∀ pk ∈ picks, (trial_loop costf picks s).2 ≤ costf pk := by
  induction picks generalizing s with
  | nil => intro pk hpk; exact absurd hpk (by simp)
  | cons pk rest ih =>
      intro q hq
      simp only [trial_loop]
      by_cases hc : costf pk < s.2
      · simp only [if_pos hc]
        by_cases hz : ((some pk : Option Pick), costf pk).2 = 0
        · simp only [if_pos hz]
          simp only at hz
          rw [hz]
          exact hn q hq
        · simp only [if_neg hz]
          rcases List.mem_cons.mp hq with h | h
          · subst h
            exact trial_loop_snd_le costf rest _
          · exact ih (some pk, costf pk) (hn pk (by simp)) (fun r hr => hn r (by simp [hr])) q h
      · simp only [if_neg hc]
        by_cases hz : s.2 = 0
        · simp only [if_pos hz]
          rw [hz]
          exact hn q hq
        · simp only [if_neg hz]
          rcases List.mem_cons.mp hq with h | h
          · subst h
            exact le_trans (trial_loop_snd_le costf rest s) (le_of_not_lt hc)
          · exact ih s h0 (fun r hr => hn r (by simp [hr])) q h

theorem trial_loop_no_improve (costf : Pick → Int) (picks : List Pick)
    (s : Option Pick × Int) (h : ∀ pk ∈ picks, s.2 ≤ costf pk) :
    trial_loop costf picks s = s := by
  induction picks generalizing s with
  | nil => rfl
  | cons pk rest ih =>
      simp only [trial_loop]
      have hc : ¬ costf pk < s.2 := not_lt.mpr (h pk (by simp))
      simp only [if_neg hc]
      by_cases hz : s.2 = 0
      · simp only [if_pos hz]
      · simp only [if_neg hz]
        exact ih s (fun r hr => h r (by simp [hr]))

theorem trial_loop_first_min (costf : Pick → Int) (picks : List Pick)
    (s : Option Pick × Int) (h : (trial_loop costf picks s).2 < s.2) :
    ∃ l₁ pk l₂, picks = l₁ ++ pk :: l₂ ∧
      (trial_loop costf picks s).1 = some pk ∧
      costf pk = (trial_loop costf picks s).2 ∧
      ∀ q ∈ l₁, (trial_loop costf picks s).2 < costf q := by
  induction picks generalizing s with
  | nil => exact absurd h (lt_irrefl _)
  | cons pk rest ih =>
      simp only [trial_loop] at h ⊢
      by_cases hc : costf pk < s.2
      · simp only [if_pos hc] at h ⊢
        by_cases hz : ((some pk : Option Pick), costf pk).2 = 0
        · simp only [if_pos hz] at h ⊢
          exact ⟨[], pk, rest, by simp, rfl, rfl, by simp⟩
        · simp only [if_neg hz] at h ⊢
          rcases lt_or_eq_of_le (trial_loop_snd_le costf rest (some pk, costf pk)) with h2 | h2
          · obtain ⟨l₁, q, l₂, hsplit, h1, h2c, hmin⟩ := ih (some pk, costf pk) h2
            refine ⟨pk :: l₁, q, l₂, by simp [hsplit], h1, h2c, ?_⟩
            intro r hr
            rcases List.mem_cons.mp hr with h3 | h3
            · subst h3; exact h2
            · exact hmin r h3
          · refine ⟨[], pk, rest, by simp, ?_, by rw [h2], by simp⟩
            exact trial_loop_fst_stay costf rest (some pk, costf pk) h2
      · simp only [if_neg hc] at h ⊢
        by_cases hz : s.2 = 0
        · simp only [if_pos hz] at h
          exact absurd h (lt_irrefl _)
        · simp only [if_neg hz] at h ⊢
          obtain ⟨l₁, q, l₂, hsplit, h1, h2c, hmin⟩ := ih s h
          refine ⟨pk :: l₁, q, l₂, by simp [hsplit], h1, h2c, ?_⟩
          intro r hr
          rcases List.mem_cons.mp hr with h3 | h3
          · subst h3; exact lt_of_lt_of_le h (le_of_not_lt hc)
          · exact hmin r h3

theorem trial_loop_fst_mem (costf : Pick → Int) (picks : List Pick)
    (s : Option Pick × Int) (pk : Pick)
    (h : (trial_loop costf picks s).1 = some pk) :
    s.1 = some pk ∨ pk ∈ picks := by
  induction picks generalizing s with
  | nil => exact Or.inl h
  | cons q rest ih =>
      simp only [trial_loop] at h
      by_cases hc : costf q < s.2
      · simp only [if_pos hc] at h
        by_cases hz : ((some q : Option Pick), costf q).2 = 0
        · simp only [if_pos hz] at h
          exact Or.inr (by simp [← Option.some_inj.mp h])
        · simp only [if_neg hz] at h
          rcases ih (some q, costf q) h with h2 | h2
          · exact Or.inr (by simp [← Option.some_inj.mp h2])
          · exact Or.inr (by simp [h2])
      · simp only [if_neg hc] at h
        by_cases hz : s.2 = 0
        · simp only [if_pos hz] at h
          exact Or.inl h
        · simp only [if_neg hz] at h
          rcases ih s h with h2 | h2
          · exact Or.inl h2
          · exact Or.inr (by simp [h2])

/-! ### The generation loop -/

theorem commit_length (roster : List Player) (pk : Pick) (mid : Nat) :
    (commit roster pk mid).1.length = roster.length := by
  simp [commit, modifyIdx_length]

theorem gen_loop_acc (g : Nat) (oracle : Nat → Nat → Pick) (i rem : Nat)
    (roster : List Player) (acc : List Match) :
    gen_loop g oracle i rem roster acc =
      ((gen_loop g oracle i rem roster []).1,
        acc ++ (gen_loop g oracle i rem roster []).2) := by
  induction rem generalizing i roster acc with
  | zero => simp [gen_loop]
  | succ rem ih =>
      cases hrs : run_slot roster g ((List.range 300).map (oracle i)) with
      | none =>
          simp only [gen_loop, hrs]
          rw [ih (i + 1) roster acc, ih (i + 1) roster []]
      | some pk =>
          simp only [gen_loop, hrs, List.nil_append]
          rw [ih (i + 1) (commit roster pk (i + 1)).1 (acc ++ [(commit roster pk (i + 1)).2]),
            ih (i + 1) (commit roster pk (i + 1)).1 [(commit roster pk (i + 1)).2]]
          simp

theorem gen_loop_len (g : Nat) (oracle : Nat → Nat → Pick) (i rem : Nat)
    (roster : List Player) (acc : List Match) :
    (gen_loop g oracle i rem roster acc).2.length ≤ acc.length + rem := by
  induction rem generalizing i roster acc with
  | zero => simp [gen_loop]
  | succ rem ih =>
      cases hrs : run_slot roster g ((List.range 300).map (oracle i)) with
      | none =>
          simp only [gen_loop, hrs]
          exact le_trans (ih (i + 1) roster acc) (by omega)
      | some pk =>
          simp only [gen_loop, hrs]
          have := ih (i + 1) (commit roster pk (i + 1)).1 (acc ++ [(commit roster pk (i + 1)).2])
          simp at this
          omega

theorem gen_loop_starved (g : Nat) (oracle : Nat → Nat → Pick) (i rem : Nat)
    (roster : List Player) (acc : List Match)
    (h : (candidates roster g).length < 4) :
    gen_loop g oracle i rem roster acc = (roster, acc) := by
  induction rem generalizing i with
  | zero => rfl
  | succ rem ih =>
      have hrs : run_slot roster g ((List.range 300).map (oracle i)) = none := by
        simp [run_slot, if_pos h]
      simp only [gen_loop, hrs]
      exact ih (i + 1)

theorem gen_loop_fst_length (g : Nat) (oracle : Nat → Nat → Pick) (i rem : Nat)
    (roster : List Player) (acc : List Match) :
    (gen_loop g oracle i rem roster acc).1.length = roster.length := by
  induction rem generalizing i roster acc with
  | zero => rfl
  | succ rem ih =>
      cases hrs : run_slot roster g ((List.range 300).map (oracle i)) with
      | none =>
          simp only [gen_loop, hrs]
          exact ih (i + 1) roster acc
      | some pk =>
          simp only [gen_loop, hrs]
          rw [ih (i + 1) (commit roster pk (i + 1)).1 _, commit_length]



theorem commit_snd (roster : List Player) (pk : Pick) (mid : Nat) :
    (commit roster pk mid).2 = ⟨mid, [pk.a, pk.b], [pk.c, pk.d], (0, 0), false⟩ := rfl

theorem commit_stats {P : Stats → Prop} (roster : List Player) (pk : Pick) (mid : Nat)
    (h : ∀ p ∈ roster, P p.stats) : ∀ p ∈ (commit roster pk mid).1, P p.stats := by
  simp only [commit]
  refine mem_modifyIdx_of_closed (P := fun (p : Player) => P p.stats) _ _ _ ?_ (fun x hx => hx)
  refine mem_modifyIdx_of_closed (P := fun (p : Player) => P p.stats) _ _ _ ?_ (fun x hx => hx)
  refine mem_modifyIdx_of_closed (P := fun (p : Player) => P p.stats) _ _ _ ?_ (fun x hx => hx)
  refine mem_modifyIdx_of_closed (P := fun (p : Player) => P p.stats) _ _ _ ?_ (fun x hx => hx)
  refine mem_modifyIdx_of_closed (P := fun (p : Player) => P p.stats) _ _ _ ?_ (fun x hx => hx)
  refine mem_modifyIdx_of_closed (P := fun (p : Player) => P p.stats) _ _ _ ?_ (fun x hx => hx)
  refine mem_modifyIdx_of_closed (P := fun (p : Player) => P p.stats) _ _ _ ?_ (fun x hx => hx)
  refine mem_modifyIdx_of_closed (P := fun (p : Player) => P p.stats) _ _ _ ?_ (fun x hx => hx)
  exact h

theorem gen_loop_stats {P : Stats → Prop} (g : Nat) (oracle : Nat → Nat → Pick)
    (i rem : Nat) (roster : List Player) (acc : List Match)
    (h : ∀ p ∈ roster, P p.stats) :
    ∀ p ∈ (gen_loop g oracle i rem roster acc).1, P p.stats := by
  induction rem generalizing i roster acc with
  | zero => exact h
  | succ rem ih =>
      cases hrs : run_slot roster g ((List.range 300).map (oracle i)) with
      | none =>
          simp only [gen_loop, hrs]
          exact ih (i + 1) roster acc h
      | some pk =>
          simp only [gen_loop, hrs]
          exact ih (i + 1) _ _ (commit_stats roster pk (i + 1) h)

theorem hist_mass_getD_modifyIdx (l : List Player) (i j : Nat) (f : Player → Player)
    (hf : ∀ p, hist_mass (f p) = hist_mass p) :
    hist_mass ((modifyIdx l i f).getD j default_player) =
      hist_mass (l.getD j default_player) := by
  by_cases hj : j < l.length
  · by_cases hij : i = j
    · subst hij
      rw [getD_modifyIdx_self l i f _ hj, hf]
    · rw [getD_modifyIdx_ne l i j f _ hij]
  · rw [List.getD_eq_default _ _ (by omega : l.length ≤ j),
      List.getD_eq_default _ _ (by rw [modifyIdx_length]; omega)]

theorem run_slot_some_mem (roster : List Player) (g : Nat) (picks : List Pick)
    (pk : Pick) (h : run_slot roster g picks = some pk) : pk ∈ picks := by
  simp only [run_slot] at h
  by_cases hlt : (candidates roster g).length < 4
  · simp [if_pos hlt] at h
  · simp only [if_neg hlt] at h
    rcases trial_loop_fst_mem _ _ _ _ h with h2 | h2
    · exact absurd h2 (by simp)
    · exact h2

theorem appearances_cons (i : Nat) (m : Match) (ms : List Match) :
    appearances i (m :: ms) = (if appears i m then 1 else 0) + appearances i ms := by
  by_cases h : appears i m
  · simp [appearances, List.filter_cons, h]
    omega
  · simp [appearances, List.filter_cons, h]

theorem appears_commit (roster : List Player) (pk : Pick) (mid : Nat) (j : Nat) :
    appears j (commit roster pk mid).2 = true ↔
      (j = pk.a ∨ j = pk.b ∨ j = pk.c ∨ j = pk.d) := by
  simp only [commit_snd, appears, List.contains_cons, List.contains_nil,
    Bool.or_eq_true, beq_iff_eq]
  tauto



theorem commit_mass (roster : List Player) (pk : Pick) (mid : Nat) (j : Nat)
    (hv : valid_pick roster.length pk) :
    hist_mass ((commit roster pk mid).1.getD j default_player) =
      hist_mass (roster.getD j default_player) +
        (if j = pk.a ∨ j = pk.b ∨ j = pk.c ∨ j = pk.d then 3 else 0) := by
  obtain ⟨ha, hb, hc, hd, hab, hac, had, hbc, hbd, hcd⟩ := hv
  have hbump : ∀ (l : List Player) (i j2 : Nat),
      hist_mass ((modifyIdx l i bump_games).getD j2 default_player) =
        hist_mass (l.getD j2 default_player) :=
    fun l i j2 => hist_mass_getD_modifyIdx l i j2 bump_games (fun p => rfl)
  simp only [commit]
  by_cases hja : j = pk.a
  · subst hja
    rw [getD_modifyIdx_ne _ _ _ _ _ (Ne.symm had), getD_modifyIdx_ne _ _ _ _ _ (Ne.symm hac),
      getD_modifyIdx_ne _ _ _ _ _ (Ne.symm hab),
      getD_modifyIdx_self _ _ _ _ (by simp [modifyIdx_length]; omega)]
    simp only [hist_mass_record, hbump]
    simp
  · by_cases hjb : j = pk.b
    · subst hjb
      rw [getD_modifyIdx_ne _ _ _ _ _ (Ne.symm hbd), getD_modifyIdx_ne _ _ _ _ _ (Ne.symm hbc),
        getD_modifyIdx_self _ _ _ _ (by simp [modifyIdx_length]; omega),
        getD_modifyIdx_ne _ _ _ _ _ hab]
      simp only [hist_mass_record, hbump]
      simp
    · by_cases hjc : j = pk.c
      · subst hjc
        rw [getD_modifyIdx_ne _ _ _ _ _ (Ne.symm hcd),
          getD_modifyIdx_self _ _ _ _ (by simp [modifyIdx_length]; omega),
          getD_modifyIdx_ne _ _ _ _ _ hbc, getD_modifyIdx_ne _ _ _ _ _ hac]
        simp only [hist_mass_record, hbump]
        simp
      · by_cases hjd : j = pk.d
        · subst hjd
          rw [getD_modifyIdx_self _ _ _ _ (by simp [modifyIdx_length]; omega),
            getD_modifyIdx_ne _ _ _ _ _ hcd, getD_modifyIdx_ne _ _ _ _ _ hbd,
            getD_modifyIdx_ne _ _ _ _ _ had]
          simp only [hist_mass_record, hbump]
          simp
        · rw [getD_modifyIdx_ne _ _ _ _ _ (fun h => hjd h.symm),
            getD_modifyIdx_ne _ _ _ _ _ (fun h => hjc h.symm),
            getD_modifyIdx_ne _ _ _ _ _ (fun h => hjb h.symm),
            getD_modifyIdx_ne _ _ _ _ _ (fun h => hja h.symm)]
          simp only [hbump]
          simp [hja, hjb, hjc, hjd]



theorem gen_loop_mass (g : Nat) (oracle : Nat → Nat → Pick) (i rem : Nat)
    (roster : List Player) (j : Nat) (hv : valid_oracle roster.length oracle) :
    hist_mass ((gen_loop g oracle i rem roster []).1.getD j default_player) =
      hist_mass (roster.getD j default_player) +
        3 * (appearances j (gen_loop g oracle i rem roster []).2 : Int) := by
  induction rem generalizing i roster with
  | zero => simp [gen_loop, appearances]
  | succ rem ih =>
      cases hrs : run_slot roster g ((List.range 300).map (oracle i)) with
      | none =>
          simp only [gen_loop, hrs]
          exact ih (i + 1) roster hv
      | some pk =>
          have hpk : valid_pick roster.length pk := by
            have hmem := run_slot_some_mem _ _ _ _ hrs
            simp only [List.mem_map] at hmem
            obtain ⟨t, _, ht⟩ := hmem
            exact ht ▸ hv i t
          simp only [gen_loop, hrs]
          rw [gen_loop_acc]
          have hv2 : valid_oracle (commit roster pk (i + 1)).1.length oracle := by
            rw [commit_length]; exact hv
          have := ih (i + 1) (commit roster pk (i + 1)).1 hv2
          rw [this, commit_mass roster pk (i + 1) j hpk]
          simp only [List.nil_append, List.singleton_append, appearances_cons]
          by_cases hmem : j = pk.a ∨ j = pk.b ∨ j = pk.c ∨ j = pk.d
          · have happ : appears j (commit roster pk (i + 1)).2 = true :=
              (appears_commit roster pk (i + 1) j).mpr hmem
            simp only [if_pos hmem, happ, if_true]
            push_cast
            ring
          · have happ : appears j (commit roster pk (i + 1)).2 = false := by
              rcases Bool.eq_false_or_eq_true (appears j (commit roster pk (i + 1)).2) with
                h4 | h4
              · exact absurd ((appears_commit roster pk (i + 1) j).mp h4) hmem
              · exact h4
            simp only [if_neg hmem, happ, Bool.false_eq_true, if_false]
            push_cast
            ring

theorem gen_loop_ids (g : Nat) (oracle : Nat → Nat → Pick) (rem i : Nat)
    (roster : List Player)
    (h : (gen_loop g oracle i rem roster []).2.length = rem) :
    ∀ k, k < rem →
      ((gen_loop g oracle i rem roster []).2.getD k default_match).id = i + 1 + k := by
  induction rem generalizing i roster with
  | zero => intro k hk; omega
  | succ rem ih =>
      cases hrs : run_slot roster g ((List.range 300).map (oracle i)) with
      | none =>
          have hlen := gen_loop_len g oracle (i + 1) rem roster []
          simp only [gen_loop, hrs] at h
          simp only [List.length_nil] at hlen
          omega
      | some pk =>
          simp only [gen_loop, hrs] at h ⊢
          rw [gen_loop_acc] at h ⊢
          simp only [List.nil_append, List.length_append, List.length_cons,
            List.length_nil] at h
          have hlen2 : (gen_loop g oracle (i + 1) rem (commit roster pk (i + 1)).1 []).2.length
              = rem := by omega
          intro k hk
          cases k with
          | zero =>
              simp [commit_snd]
          | succ k2 =>
              have := ih (i + 1) (commit roster pk (i + 1)).1 hlen2 k2 (by omega)
              simp only [List.nil_append, List.singleton_append, getD_cons_succ]
              rw [this]
              omega

theorem gen_loop_matches (g : Nat) (oracle : Nat → Nat → Pick) (i rem : Nat)
    (roster : List Player) (acc : List Match) :
    ∀ m ∈ (gen_loop g oracle i rem roster acc).2, m ∈ acc ∨
      ∃ j t, m.team_a = [(oracle j t).a, (oracle j t).b] ∧
        m.team_b = [(oracle j t).c, (oracle j t).d] := by
  induction rem generalizing i roster acc with
  | zero => intro m hm; exact Or.inl hm
  | succ rem ih =>
      intro m hm
      cases hrs : run_slot roster g ((List.range 300).map (oracle i)) with
      | none =>
          simp only [gen_loop, hrs] at hm
          exact ih (i + 1) roster acc m hm
      | some pk =>
          simp only [gen_loop, hrs] at hm
          rcases ih (i + 1) _ _ m hm with h2 | h2
          · rcases List.mem_append.mp h2 with h3 | h3
            · exact Or.inl h3
            · right
              have hm2 : m = (commit roster pk (i + 1)).2 := by simpa using h3
              have hmem := run_slot_some_mem _ _ _ _ hrs
              simp only [List.mem_map] at hmem
              obtain ⟨t, _, ht⟩ := hmem
              exact ⟨i, t, by simp [hm2, commit_snd, ht], by simp [hm2, commit_snd, ht]⟩
          · exact Or.inr h2

end Tennis

namespace Tennis

/-- C1: `calculate_cost(p1, p2, p3, p4)` returns exactly
`5 * partnerCount(p1, p2) + 5 * partnerCount(p3, p4) + 2 * (oppCount(p1, p3) +
oppCount(p1, p4) + oppCount(p2, p3) + oppCount(p2, p4))`, each count looked up
by the other player's name in the first player's own history with a missing
key counting as 0; when all stored counts are non-negative the result is
non-negative. -/
theorem C1_cost_formula (p1 p2 p3 p4 : Player)
    (h : ∀ p ∈ [p1, p2, p3, p4],
      nonneg_counts p.history.partner ∧ nonneg_counts p.history.opponent) :
    calculate_cost p1 p2 p3 p4 =
      5 * getCount p1.history.partner p2.name +
        5 * getCount p3.history.partner p4.name +
        2 * (getCount p1.history.opponent p3.name +
          getCount p1.history.opponent p4.name +
          getCount p2.history.opponent p3.name +
          getCount p2.history.opponent p4.name) ∧
    0 ≤ calculate_cost p1 p2 p3 p4 := by
  have n1 := getCount_nonneg p1.history.partner p2.name (h p1 (by simp)).1
  have n2 := getCount_nonneg p3.history.partner p4.name (h p3 (by simp)).1
  have n3 := getCount_nonneg p1.history.opponent p3.name (h p1 (by simp)).2
  have n4 := getCount_nonneg p1.history.opponent p4.name (h p1 (by simp)).2
  have n5 := getCount_nonneg p2.history.opponent p3.name (h p2 (by simp)).2
  have n6 := getCount_nonneg p2.history.opponent p4.name (h p2 (by simp)).2
  constructor
  · simp only [calculate_cost]
    ring
  · simp only [calculate_cost]
    omega

/-- Witness for C1 at four fresh players (all counts 0, so both hypotheses and
the conclusion evaluate concretely). -/
theorem C1_cost_formula_witness :
    calculate_cost (Player.init "A") (Player.init "B") (Player.init "C") (Player.init "D") =
      5 * getCount (Player.init "A").history.partner "B" +
        5 * getCount (Player.init "C").history.partner "D" +
        2 * (getCount (Player.init "A").history.opponent "C" +
          getCount (Player.init "A").history.opponent "D" +
          getCount (Player.init "B").history.opponent "C" +
          getCount (Player.init "B").history.opponent "D") ∧
    0 ≤ calculate_cost (Player.init "A") (Player.init "B") (Player.init "C") (Player.init "D") :=
  C1_cost_formula (Player.init "A") (Player.init "B") (Player.init "C") (Player.init "D")
    (by intro p hp; fin_cases hp <;> exact ⟨fun kv hkv => absurd hkv (by simp [Player.init]),
      fun kv hkv => absurd hkv (by simp [Player.init])⟩)

end Tennis

namespace Tennis

/-- C7 counterexample: the claim quantifies over all four Player states, but
with `cxAsym` recorded as having partnered "B" once while "B"'s history is
empty, swapping the two members of team A changes the cost from 5 to 0. -/
theorem C7_counterexample :
    ¬ calculate_cost cxAsym (Player.init "B") (Player.init "C") (Player.init "D") =
      calculate_cost (Player.init "B") cxAsym (Player.init "C") (Player.init "D") := by
  decide

/-- C7 amended: the cost is invariant under swapping the two members of either
team and under swapping the two teams, provided the stored histories are
symmetric between the four players (`a`'s count for `b` equals `b`'s count for
`a`, for partners on each team and opponents on each cross pair) — which is how
`record_match_relations` always writes them. -/
theorem C7_amended (p1 p2 p3 p4 : Player)
    (hp12 : getCount p1.history.partner p2.name = getCount p2.history.partner p1.name)
    (hp34 : getCount p3.history.partner p4.name = getCount p4.history.partner p3.name)
    (ho13 : getCount p1.history.opponent p3.name = getCount p3.history.opponent p1.name)
    (ho14 : getCount p1.history.opponent p4.name = getCount p4.history.opponent p1.name)
    (ho23 : getCount p2.history.opponent p3.name = getCount p3.history.opponent p2.name)
    (ho24 : getCount p2.history.opponent p4.name = getCount p4.history.opponent p2.name) :
    calculate_cost p1 p2 p3 p4 = calculate_cost p2 p1 p3 p4 ∧
    calculate_cost p1 p2 p3 p4 = calculate_cost p1 p2 p4 p3 ∧
    calculate_cost p1 p2 p3 p4 = calculate_cost p3 p4 p1 p2 := by
  refine ⟨?_, ?_, ?_⟩ <;>
    · simp only [calculate_cost, hp12, hp34, ho13, ho14, ho23, ho24]
      ring

/-- Witness for C7 at four fresh players (all histories empty, hence
symmetric). -/
theorem C7_amended_witness :
    calculate_cost (Player.init "A") (Player.init "B") (Player.init "C") (Player.init "D") =
      calculate_cost (Player.init "B") (Player.init "A") (Player.init "C") (Player.init "D") ∧
    calculate_cost (Player.init "A") (Player.init "B") (Player.init "C") (Player.init "D") =
      calculate_cost (Player.init "A") (Player.init "B") (Player.init "D") (Player.init "C") ∧
    calculate_cost (Player.init "A") (Player.init "B") (Player.init "C") (Player.init "D") =
      calculate_cost (Player.init "C") (Player.init "D") (Player.init "A") (Player.init "B") :=
  C7_amended (Player.init "A") (Player.init "B") (Player.init "C") (Player.init "D")
    (by decide) (by decide) (by decide) (by decide) (by decide) (by decide)

end Tennis

namespace Tennis

/-- C3: with `n` players and positive `gamesPerPlayer = g`, `generate_schedule`
computes `totalMatches = n * g / 4` rounded down and returns at most that many
matches; a non-divisible `n * g` just truncates (the function is total — no
error is ever raised). -/
theorem C3_total_matches (roster : List Player) (g : Nat)
    (oracle : Nat → Nat → Pick) (_hg : 0 < g) :
    (generate_schedule roster g oracle).2.length ≤ roster.length * g / 4 := by
  have h := gen_loop_len g oracle 0 (roster.length * g / 4) (reset_games roster) []
  simp only [List.length_nil, Nat.zero_add] at h
  simpa [generate_schedule] using h

/-- Witness for C3: 5 players at one game each — 5 * 1 is not divisible by 4,
`totalMatches` truncates to 1, and at most one match comes back. -/
theorem C3_total_matches_witness :
    (generate_schedule (mk_roster ["A", "B", "C", "D", "E"]) 1 wOracle).2.length ≤
      (mk_roster ["A", "B", "C", "D", "E"]).length * 1 / 4 :=
  C3_total_matches (mk_roster ["A", "B", "C", "D", "E"]) 1 wOracle (by decide)

/-- C4: if at the start of some slot fewer than 4 players have a
generation-time counter below `g`, the slot loop commits nothing for that slot
or any later slot and returns the roster and the matches accumulated so far
unchanged — no error is raised. -/
theorem C4_starvation (g : Nat) (oracle : Nat → Nat → Pick) (i rem : Nat)
    (roster : List Player) (acc : List Match)
    (h : (candidates roster g).length < 4) :
    gen_loop g oracle i rem roster acc = (roster, acc) :=
  gen_loop_starved g oracle i rem roster acc h

/-- Witness for C4: a three-player roster is starved from the first slot on,
so five further slots change nothing. -/
theorem C4_starvation_witness :
    gen_loop 2 wOracle 0 5 (mk_roster ["A", "B", "C"]) [] =
      (mk_roster ["A", "B", "C"], []) :=
  C4_starvation 2 wOracle 0 5 (mk_roster ["A", "B", "C"]) [] (by decide)

end Tennis

namespace Tennis

set_option maxRecDepth 200000 in
/-- C2 counterexample: in `cxRoster` the only quadruple the oracle draws costs
1000000, which never beats the 999999 initialization of `min_cost`, so the
slot — though not starved (4 candidates) and though its 300 trials all saw
that lowest-cost subset — commits nothing: the claim that the lowest-cost
subset seen is committed fails. -/
theorem C2_counterexample :
    calculate_cost cxPlayer (Player.init "B") (Player.init "C") (Player.init "D") = 1000000 ∧
    (candidates (reset_games cxRoster) 1).length = 4 ∧
    (generate_schedule cxRoster 1 wOracle).2 = [] := by
  refine ⟨by decide, by decide, by decide⟩

/-- C2 amended: per slot the engine runs the trial minimization over the drawn
samples (at most 300 of them, by construction of the pick list handed to
`run_slot`): with non-negative costs the recorded minimum is a lower bound on
every drawn sample's cost, and whenever that minimum beats the 999999
initialization of `min_cost` the committed subset is the first drawn sample
achieving it (strict improvement only, stopping early on cost 0); but if every
drawn sample costs at least 999999 the slot commits nothing at all. -/
theorem C2_amended (roster : List Player) (g : Nat) (picks : List Pick)
    (hge : ¬ (candidates roster g).length < 4)
    (hn : ∀ pk ∈ picks, 0 ≤ cost_of roster pk) :
    run_slot roster g picks = (trial_loop (cost_of roster) picks (none, 999999)).1 ∧
    (∀ pk ∈ picks,
      (trial_loop (cost_of roster) picks (none, 999999)).2 ≤ cost_of roster pk) ∧
    ((trial_loop (cost_of roster) picks (none, 999999)).2 < 999999 →
      ∃ l₁ pk l₂, picks = l₁ ++ pk :: l₂ ∧
        (trial_loop (cost_of roster) picks (none, 999999)).1 = some pk ∧
        cost_of roster pk = (trial_loop (cost_of roster) picks (none, 999999)).2 ∧
        ∀ q ∈ l₁,
          (trial_loop (cost_of roster) picks (none, 999999)).2 < cost_of roster q) ∧
    ((∀ pk ∈ picks, (999999 : Int) ≤ cost_of roster pk) →
      run_slot roster g picks = none) := by
  refine ⟨by simp [run_slot, hge], ?_, ?_, ?_⟩
  · exact trial_loop_le_costs (cost_of roster) picks (none, 999999) (by norm_num) hn
  · intro h
    exact trial_loop_first_min (cost_of roster) picks (none, 999999) h
  · intro h
    have h2 := trial_loop_no_improve (cost_of roster) picks (none, 999999) h
    simp [run_slot, hge, h2]

/-- Witness for C2 at a fresh four-player roster and a single drawn sample. -/
theorem C2_amended_witness :
    run_slot wRoster 1 [⟨0, 1, 2, 3⟩] =
      (trial_loop (cost_of wRoster) [⟨0, 1, 2, 3⟩] (none, 999999)).1 :=
  (C2_amended wRoster 1 [⟨0, 1, 2, 3⟩] (by decide) (by decide)).1

end Tennis

namespace Tennis

set_option maxRecDepth 200000 in
/-- C8 counterexample: in `cx8Roster` slot 0's 300 trials all draw the
1000000-cost quadruple, so the slot commits nothing; slot 1 commits the
cost-0 quadruple and labels it `i + 1 = 2`.  The returned list's first (and
only) match hence has id 2, not 1. -/
theorem C8_counterexample :
    (generate_schedule cx8Roster 1 cx8Oracle).2.map (fun m => m.id) = [2] := by
  decide

/-- C8 amended: each committed match is labelled with its 1-based slot number;
when no slot is skipped — that is, when `generate_schedule` returns exactly
`totalMatches` matches — the k-th match of the returned list has id k
(1-based).  A skipped slot (all 300 of its trials costing at least 999999, or
candidate starvation) leaves a gap in the id sequence instead. -/
theorem C8_amended (roster : List Player) (g : Nat) (oracle : Nat → Nat → Pick)
    (h : (generate_schedule roster g oracle).2.length = roster.length * g / 4) :
    ∀ k, k < (generate_schedule roster g oracle).2.length →
      ((generate_schedule roster g oracle).2.getD k default_match).id = k + 1 := by
  intro k hk
  have h2 : (gen_loop g oracle 0 (roster.length * g / 4) (reset_games roster) []).2.length =
      roster.length * g / 4 := by
    simpa [generate_schedule] using h
  simp only [generate_schedule] at hk ⊢
  have h3 := gen_loop_ids g oracle (roster.length * g / 4) 0 (reset_games roster) h2 k
    (by omega)
  rw [h3]
  omega

/-- Witness for C8: a fresh four-player roster at one game per player fills its
single slot, whose match gets id 1. -/
theorem C8_amended_witness :
    ((generate_schedule wRoster 1 wOracle).2.getD 0 default_match).id = 0 + 1 :=
  C8_amended wRoster 1 wOracle (by decide) 0 (by decide)

end Tennis

namespace Tennis

/-- C5: submitting a score pair `(sa, sb)` to a well-formed pending match
computes `diff = |sa - sb|` and `teamAWon = sa > sb`; each team A player gets
`update_stat(teamAWon, +diff if won else -diff)` and each team B player the
complement; the match's result and finished flag are set; and in particular a
tied score credits both team B players with a win and both team A players with
a loss, each at zero score-diff change. -/
theorem C5_apply_result (roster : List Player) (m : Match) (sa sb : Nat)
    (a1 a2 b1 b2 : Nat)
    (hta : m.team_a = [a1, a2]) (htb : m.team_b = [b1, b2])
    (ha1 : a1 < roster.length) (ha2 : a2 < roster.length)
    (hb1 : b1 < roster.length) (hb2 : b2 < roster.length)
    (h12 : a1 ≠ a2) (h13 : a1 ≠ b1) (h14 : a1 ≠ b2)
    (h23 : a2 ≠ b1) (h24 : a2 ≠ b2) (h34 : b1 ≠ b2) :
    ((apply_result roster m sa sb).1.getD a1 default_player =
        (roster.getD a1 default_player).update_stat (decide (sb < sa))
          (if sb < sa then |(sa : Int) - sb| else -|(sa : Int) - sb|)) ∧
    ((apply_result roster m sa sb).1.getD a2 default_player =
        (roster.getD a2 default_player).update_stat (decide (sb < sa))
          (if sb < sa then |(sa : Int) - sb| else -|(sa : Int) - sb|)) ∧
    ((apply_result roster m sa sb).1.getD b1 default_player =
        (roster.getD b1 default_player).update_stat (!decide (sb < sa))
          (if sb < sa then -|(sa : Int) - sb| else |(sa : Int) - sb|)) ∧
    ((apply_result roster m sa sb).1.getD b2 default_player =
        (roster.getD b2 default_player).update_stat (!decide (sb < sa))
          (if sb < sa then -|(sa : Int) - sb| else |(sa : Int) - sb|)) ∧
    (apply_result roster m sa sb).2.result = (sa, sb) ∧
    (apply_result roster m sa sb).2.is_finished = true ∧
    (sa = sb →
      ((apply_result roster m sa sb).1.getD b1 default_player).stats.wins =
          (roster.getD b1 default_player).stats.wins + 1 ∧
      ((apply_result roster m sa sb).1.getD b2 default_player).stats.wins =
          (roster.getD b2 default_player).stats.wins + 1 ∧
      ((apply_result roster m sa sb).1.getD a1 default_player).stats.losses =
          (roster.getD a1 default_player).stats.losses + 1 ∧
      ((apply_result roster m sa sb).1.getD a2 default_player).stats.losses =
          (roster.getD a2 default_player).stats.losses + 1 ∧
      ((apply_result roster m sa sb).1.getD a1 default_player).stats.score_diff =
          (roster.getD a1 default_player).stats.score_diff ∧
      ((apply_result roster m sa sb).1.getD a2 default_player).stats.score_diff =
          (roster.getD a2 default_player).stats.score_diff ∧
      ((apply_result roster m sa sb).1.getD b1 default_player).stats.score_diff =
          (roster.getD b1 default_player).stats.score_diff ∧
      ((apply_result roster m sa sb).1.getD b2 default_player).stats.score_diff =
          (roster.getD b2 default_player).stats.score_diff) := by
  have hunf : (apply_result roster m sa sb).1 =
      modifyIdx (modifyIdx (modifyIdx (modifyIdx roster a1
        (fun p => p.update_stat (decide (sb < sa))
          (if decide (sb < sa) then |(sa : Int) - sb| else -|(sa : Int) - sb|))) a2
        (fun p => p.update_stat (decide (sb < sa))
          (if decide (sb < sa) then |(sa : Int) - sb| else -|(sa : Int) - sb|))) b1
        (fun p => p.update_stat (!decide (sb < sa))
          (if !decide (sb < sa) then |(sa : Int) - sb| else -|(sa : Int) - sb|))) b2
        (fun p => p.update_stat (!decide (sb < sa))
          (if !decide (sb < sa) then |(sa : Int) - sb| else -|(sa : Int) - sb|)) := by
    simp [apply_result, hta, htb, update_team]
  have Ha1 : (apply_result roster m sa sb).1.getD a1 default_player =
      (roster.getD a1 default_player).update_stat (decide (sb < sa))
        (if sb < sa then |(sa : Int) - sb| else -|(sa : Int) - sb|) := by
    rw [hunf, getD_modifyIdx_ne _ _ _ _ _ (Ne.symm h14),
      getD_modifyIdx_ne _ _ _ _ _ (Ne.symm h13),
      getD_modifyIdx_ne _ _ _ _ _ (Ne.symm h12),
      getD_modifyIdx_self _ _ _ _ ha1]
    by_cases hw : sb < sa <;> simp [hw]
  have Ha2 : (apply_result roster m sa sb).1.getD a2 default_player =
      (roster.getD a2 default_player).update_stat (decide (sb < sa))
        (if sb < sa then |(sa : Int) - sb| else -|(sa : Int) - sb|) := by
    rw [hunf, getD_modifyIdx_ne _ _ _ _ _ (Ne.symm h24),
      getD_modifyIdx_ne _ _ _ _ _ (Ne.symm h23),
      getD_modifyIdx_self _ _ _ _ (by simpa [modifyIdx_length] using ha2),
      getD_modifyIdx_ne _ _ _ _ _ h12]
    by_cases hw : sb < sa <;> simp [hw]
  have Hb1 : (apply_result roster m sa sb).1.getD b1 default_player =
      (roster.getD b1 default_player).update_stat (!decide (sb < sa))
        (if sb < sa then -|(sa : Int) - sb| else |(sa : Int) - sb|) := by
    rw [hunf, getD_modifyIdx_ne _ _ _ _ _ (Ne.symm h34),
      getD_modifyIdx_self _ _ _ _ (by simpa [modifyIdx_length] using hb1),
      getD_modifyIdx_ne _ _ _ _ _ h23, getD_modifyIdx_ne _ _ _ _ _ h13]
    by_cases hw : sb < sa <;> simp [hw]
  have Hb2 : (apply_result roster m sa sb).1.getD b2 default_player =
      (roster.getD b2 default_player).update_stat (!decide (sb < sa))
        (if sb < sa then -|(sa : Int) - sb| else |(sa : Int) - sb|) := by
    rw [hunf, getD_modifyIdx_self _ _ _ _ (by simpa [modifyIdx_length] using hb2),
      getD_modifyIdx_ne _ _ _ _ _ h34, getD_modifyIdx_ne _ _ _ _ _ h24,
      getD_modifyIdx_ne _ _ _ _ _ h14]
    by_cases hw : sb < sa <;> simp [hw]
  refine ⟨Ha1, Ha2, Hb1, Hb2, rfl, rfl, ?_⟩
  intro hsab
  have hw : ¬ sb < sa := by omega
  have hd : |(sa : Int) - sb| = 0 := by
    rw [abs_eq_zero]
    omega
  rw [Ha1, Ha2, Hb1, Hb2]
  simp [Player.update_stat, hw, hd]

/-- Witness for C5: the spec's concrete scenario — score 21:15 applied to
teams (0, 1) vs (2, 3) of a fresh four-player roster. -/
theorem C5_apply_result_witness :
    ((apply_result wRoster wMatch 21 15).1.getD 0 default_player =
        (wRoster.getD 0 default_player).update_stat (decide (15 < 21))
          (if 15 < 21 then |(21 : Int) - 15| else -|(21 : Int) - 15|)) ∧
    ((apply_result wRoster wMatch 21 15).1.getD 1 default_player =
        (wRoster.getD 1 default_player).update_stat (decide (15 < 21))
          (if 15 < 21 then |(21 : Int) - 15| else -|(21 : Int) - 15|)) ∧
    ((apply_result wRoster wMatch 21 15).1.getD 2 default_player =
        (wRoster.getD 2 default_player).update_stat (!decide (15 < 21))
          (if 15 < 21 then -|(21 : Int) - 15| else |(21 : Int) - 15|)) ∧
    ((apply_result wRoster wMatch 21 15).1.getD 3 default_player =
        (wRoster.getD 3 default_player).update_stat (!decide (15 < 21))
          (if 15 < 21 then -|(21 : Int) - 15| else |(21 : Int) - 15|)) ∧
    (apply_result wRoster wMatch 21 15).2.result = (21, 15) ∧
    (apply_result wRoster wMatch 21 15).2.is_finished = true ∧
    (21 = 15 →
      ((apply_result wRoster wMatch 21 15).1.getD 2 default_player).stats.wins =
          (wRoster.getD 2 default_player).stats.wins + 1 ∧
      ((apply_result wRoster wMatch 21 15).1.getD 3 default_player).stats.wins =
          (wRoster.getD 3 default_player).stats.wins + 1 ∧
      ((apply_result wRoster wMatch 21 15).1.getD 0 default_player).stats.losses =
          (wRoster.getD 0 default_player).stats.losses + 1 ∧
      ((apply_result wRoster wMatch 21 15).1.getD 1 default_player).stats.losses =
          (wRoster.getD 1 default_player).stats.losses + 1 ∧
      ((apply_result wRoster wMatch 21 15).1.getD 0 default_player).stats.score_diff =
          (wRoster.getD 0 default_player).stats.score_diff ∧
      ((apply_result wRoster wMatch 21 15).1.getD 1 default_player).stats.score_diff =
          (wRoster.getD 1 default_player).stats.score_diff ∧
      ((apply_result wRoster wMatch 21 15).1.getD 2 default_player).stats.score_diff =
          (wRoster.getD 2 default_player).stats.score_diff ∧
      ((apply_result wRoster wMatch 21 15).1.getD 3 default_player).stats.score_diff =
          (wRoster.getD 3 default_player).stats.score_diff) :=
  C5_apply_result wRoster wMatch 21 15 0 1 2 3 (by decide) (by decide) (by decide)
    (by decide) (by decide) (by decide) (by decide) (by decide) (by decide)
    (by decide) (by decide) (by decide)

end Tennis

namespace Tennis

theorem update_stat_consistent (p : Player) (w : Bool) (d : Int)
    (h : stats_consistent p) : stats_consistent (p.update_stat w d) := by
  cases w <;> simp [stats_consistent, Player.update_stat] at * <;> omega

theorem update_team_consistent (team : List Nat) (roster : List Player)
    (w : Bool) (d : Int) (h : ∀ p ∈ roster, stats_consistent p) :
    ∀ p ∈ update_team roster team w d, stats_consistent p := by
  induction team generalizing roster with
  | nil => exact h
  | cons i rest ih =>
      simp only [update_team, List.foldl_cons] at *
      exact ih _ (mem_modifyIdx_of_closed _ _ _ h
        (fun x hx => update_stat_consistent x w d hx))

theorem apply_result_consistent (roster : List Player) (m : Match) (sa sb : Nat)
    (h : ∀ p ∈ roster, stats_consistent p) :
    ∀ p ∈ (apply_result roster m sa sb).1, stats_consistent p := by
  simp only [apply_result]
  exact update_team_consistent _ _ _ _ (update_team_consistent _ _ _ _ h)

theorem generate_fresh_zero (names : List String) (g : Nat)
    (oracle : Nat → Nat → Pick) :
    ∀ p ∈ (generate_schedule (mk_roster names) g oracle).1,
      p.stats.wins = 0 ∧ p.stats.losses = 0 ∧ p.games_played = 0 := by
  intro p hp
  simp only [generate_schedule, reset_games, List.mem_map] at hp
  obtain ⟨q, hq, rfl⟩ := hp
  have hbase : ∀ p2 ∈ reset_games (mk_roster names),
      p2.stats.wins = 0 ∧ p2.stats.losses = 0 := by
    intro p2 hp2
    simp only [reset_games, mk_roster, List.mem_map] at hp2
    obtain ⟨q2, ⟨n, _, rfl⟩, rfl⟩ := hp2
    exact ⟨rfl, rfl⟩
  have hstats := gen_loop_stats (P := fun s => s.wins = 0 ∧ s.losses = 0) g oracle 0
    ((mk_roster names).length * g / 4) (reset_games (mk_roster names)) [] hbase q hq
  exact ⟨hstats.1, hstats.2, rfl⟩

/-- C6: starting from the roster state immediately after a schedule generation
(the UI always generates on a freshly built roster), any sequence of result
applications leaves every player with `wins + losses == gamesPlayed`. -/
theorem C6_invariant (names : List String) (g : Nat) (oracle : Nat → Nat → Pick)
    (ops : List (Match × Nat × Nat)) :
    ∀ p ∈ ops.foldl (fun r op => (apply_result r op.1 op.2.1 op.2.2).1)
        (generate_schedule (mk_roster names) g oracle).1,
      p.stats.wins + p.stats.losses = p.games_played := by
  have h0 : ∀ p ∈ (generate_schedule (mk_roster names) g oracle).1,
      stats_consistent p := by
    intro p hp
    have := generate_fresh_zero names g oracle p hp
    simp [stats_consistent, this.1, this.2.1, this.2.2]
  have hfold : ∀ (ops2 : List (Match × Nat × Nat)) (roster : List Player),
      (∀ p ∈ roster, stats_consistent p) →
      ∀ p ∈ ops2.foldl (fun r op => (apply_result r op.1 op.2.1 op.2.2).1) roster,
        stats_consistent p := by
    intro ops2
    induction ops2 with
    | nil => intro roster h p hp; exact h p hp
    | cons op rest ih =>
        intro roster h
        simp only [List.foldl_cons]
        exact ih _ (apply_result_consistent roster op.1 op.2.1 op.2.2 h)
  exact hfold ops _ h0

end Tennis

namespace Tennis

set_option maxRecDepth 100000 in
set_option maxHeartbeats 1000000 in
/-- Witness for C6: four fresh players, one generation, one submitted result;
player 0's tallies stay consistent. -/
theorem C6_invariant_witness :
    (([(wMatch, 21, 15)].foldl (fun r op => (apply_result r op.1 op.2.1 op.2.2).1)
        (generate_schedule (mk_roster ["A", "B", "C", "D"]) 1 wOracle).1).getD 0
          default_player).stats.wins +
      (([(wMatch, 21, 15)].foldl (fun r op => (apply_result r op.1 op.2.1 op.2.2).1)
          (generate_schedule (mk_roster ["A", "B", "C", "D"]) 1 wOracle).1).getD 0
            default_player).stats.losses =
      (([(wMatch, 21, 15)].foldl (fun r op => (apply_result r op.1 op.2.1 op.2.2).1)
          (generate_schedule (mk_roster ["A", "B", "C", "D"]) 1 wOracle).1).getD 0
            default_player).games_played :=
  C6_invariant ["A", "B", "C", "D"] 1 wOracle [(wMatch, 21, 15)]
    (([(wMatch, 21, 15)].foldl (fun r op => (apply_result r op.1 op.2.1 op.2.2).1)
        (generate_schedule (mk_roster ["A", "B", "C", "D"]) 1 wOracle).1).getD 0
          default_player) (by decide)

theorem reset_games_length (roster : List Player) :
    (reset_games roster).length = roster.length := by
  simp [reset_games]

theorem reset_games_getD (l : List Player) (j : Nat) (h : j < l.length) :
    (reset_games l).getD j default_player =
      { l.getD j default_player with games_played := 0 } := by
  simp only [reset_games]
  exact getD_map_of_lt _ _ j default_player default_player h

/-- C9: after `generate_schedule` completes, every player's generation-time
counter (`games_played`) is exactly 0, and the total number of history
increments each player received during the generation equals 3 times the
number of generated matches that player appears in (each commit writes one
partner increment and two opponent increments per participant). -/
theorem C9_counters_and_history (roster : List Player) (g : Nat)
    (oracle : Nat → Nat → Pick) (j : Nat)
    (hv : valid_oracle roster.length oracle) (hj : j < roster.length) :
    ((generate_schedule roster g oracle).1.getD j default_player).games_played = 0 ∧
    hist_mass ((generate_schedule roster g oracle).1.getD j default_player) =
      hist_mass (roster.getD j default_player) +
        3 * (appearances j (generate_schedule roster g oracle).2 : Int) := by
  have hv2 : valid_oracle (reset_games roster).length oracle := by
    rw [reset_games_length]; exact hv
  have hlen : (gen_loop g oracle 0 (roster.length * g / 4)
      (reset_games roster) []).1.length = roster.length := by
    rw [gen_loop_fst_length, reset_games_length]
  have hmass := gen_loop_mass g oracle 0 (roster.length * g / 4)
    (reset_games roster) j hv2
  have hget : (generate_schedule roster g oracle).1.getD j default_player =
      { (gen_loop g oracle 0 (roster.length * g / 4)
          (reset_games roster) []).1.getD j default_player with games_played := 0 } := by
    simp only [generate_schedule]
    exact reset_games_getD _ j (by rw [hlen]; exact hj)
  have hget0 : (reset_games roster).getD j default_player =
      { roster.getD j default_player with games_played := 0 } :=
    reset_games_getD roster j hj
  constructor
  · rw [hget]
  · have hm1 : hist_mass ((generate_schedule roster g oracle).1.getD j default_player) =
        hist_mass ((gen_loop g oracle 0 (roster.length * g / 4)
          (reset_games roster) []).1.getD j default_player) := by
      rw [hget]; rfl
    have hm0 : hist_mass ((reset_games roster).getD j default_player) =
        hist_mass (roster.getD j default_player) := by
      rw [hget0]; rfl
    have hmatches : (generate_schedule roster g oracle).2 =
        (gen_loop g oracle 0 (roster.length * g / 4) (reset_games roster) []).2 := by
      simp only [generate_schedule]
    rw [hm1, hmatches, hmass, hm0]

/-- Witness for C9: fresh four-player roster, one game each, always drawing
(0, 1, 2, 3): player 0 ends with counter 0 and 3 history increments for their
single match. -/
theorem C9_counters_and_history_witness :
    ((generate_schedule wRoster 1 wOracle).1.getD 0 default_player).games_played = 0 ∧
    hist_mass ((generate_schedule wRoster 1 wOracle).1.getD 0 default_player) =
      hist_mass (wRoster.getD 0 default_player) +
        3 * (appearances 0 (generate_schedule wRoster 1 wOracle).2 : Int) :=
  C9_counters_and_history wRoster 1 wOracle 0
    (by intro i t; show valid_pick wRoster.length ⟨0, 1, 2, 3⟩; decide) (by decide)

/-- C10: every generated match has exactly two players on team A and two on
team B, and the four roster slots of a match are pairwise distinct (team A and
team B are disjoint) — `random.sample` never repeats a candidate within one
draw. -/
theorem C10_teams (roster : List Player) (g : Nat) (oracle : Nat → Nat → Pick)
    (hv : valid_oracle roster.length oracle) :
    ∀ m ∈ (generate_schedule roster g oracle).2,
      m.team_a.length = 2 ∧ m.team_b.length = 2 ∧
      List.Pairwise (fun x y => x ≠ y) (m.team_a ++ m.team_b) := by
  intro m hm
  simp only [generate_schedule] at hm
  rcases gen_loop_matches g oracle 0 (roster.length * g / 4)
      (reset_games roster) [] m hm with h | h
  · exact absurd h (by simp)
  · obtain ⟨j, t, hta, htb⟩ := h
    obtain ⟨ha, hb, hc, hd, hab, hac, had, hbc, hbd, hcd⟩ := hv j t
    refine ⟨by rw [hta]; rfl, by rw [htb]; rfl, ?_⟩
    rw [hta, htb]
    show List.Pairwise (fun x y => x ≠ y)
      [(oracle j t).a, (oracle j t).b, (oracle j t).c, (oracle j t).d]
    refine List.Pairwise.cons ?_ (List.Pairwise.cons ?_ (List.Pairwise.cons ?_
      (List.Pairwise.cons (by simp) List.Pairwise.nil)))
    · intro y hy
      fin_cases hy
      · exact hab
      · exact hac
      · exact had
    · intro y hy
      fin_cases hy
      · exact hbc
      · exact hbd
    · intro y hy
      fin_cases hy
      exact hcd

/-- Witness for C10: the single match generated for the fresh four-player
roster has teams [0, 1] and [2, 3] of pairwise distinct indices. -/
theorem C10_teams_witness :
    ((generate_schedule wRoster 1 wOracle).2.getD 0 default_match).team_a.length = 2 ∧
    ((generate_schedule wRoster 1 wOracle).2.getD 0 default_match).team_b.length = 2 ∧
    List.Pairwise (fun x y => x ≠ y)
      (((generate_schedule wRoster 1 wOracle).2.getD 0 default_match).team_a ++
        ((generate_schedule wRoster 1 wOracle).2.getD 0 default_match).team_b) :=
  C10_teams wRoster 1 wOracle
    (by intro i t; show valid_pick wRoster.length ⟨0, 1, 2, 3⟩; decide)
    ((generate_schedule wRoster 1 wOracle).2.getD 0 default_match) (by decide)

end Tennis
